import Mathlib

/-!
Verification of the pyTenable Nessus endpoint layer.

The development embeds `NessusEndpoint._parse_filters` from
`tenable/nessus/base.py` (validation of filter tuples against a filter schema
followed by encoding into one of three wire formats, `sjson`, `json` and
`colon`) and `AgentsAPI.unlink` from `tenable/nessus/agents.py`.

Python dictionaries are modelled as insertion-ordered association lists,
Python exceptions as `Except` errors.  The helper `APIEndpoint._check` lives
in `tenable/base.py`, which is outside the sources; its behaviour at the three
call sites is modelled from the specification and marked as such.
-/

/-- Values stored in the response dictionary built by `_parse_filters`:
plain strings (`sjson` mode), lists (`json` and `colon` modes), and the
literal record `{'filter': fname, 'quality': foper, 'value': fval}` appended
in `json` mode. -/
inductive JVal where
  | str (s : String)
  | list (vs : List JVal)
  | record (filter : String) (quality : String) (value : String)

/-- Python `list.append` on a stored value: the source only ever applies it
to values that are lists, so other values are returned unchanged. -/
def JVal.push : JVal → JVal → JVal
  | .list vs, x => .list (vs ++ [x])
  | v, _ => v

/-- An insertion-ordered Python dictionary with string keys. -/
abbrev PyDict := List (String × JVal)

namespace PyDict

/-- Python `key in d` membership test. -/
def containsKey (d : PyDict) (k : String) : Bool :=
  d.any (fun p => p.1 == k)

/-- Python `d[k] = v`: update in place if the key exists, otherwise append a
new binding at the end, preserving insertion order. -/
def assign (d : PyDict) (k : String) (v : JVal) : PyDict :=
  if d.containsKey k then
    d.map (fun p => if p.1 == k then (k, v) else p)
  else
    d ++ [(k, v)]

/-- Python `d[k].append(x)`: mutate the list stored at key `k` in place.  In
the source this only runs right after `k` was given a list value. -/
def appendAt (d : PyDict) (k : String) (x : JVal) : PyDict :=
  d.map (fun p => if p.1 == k then (p.1, p.2.push x) else p)

/-- The keys of the dictionary, in insertion order. -/
def keys (d : PyDict) : List String :=
  d.map (fun p => p.1)

end PyDict

/-- One entry of the filter schema (`filterset[name]` in the source): the
permitted operators, an optional choice set for values, and an optional
value pattern.  The pattern is kept abstract as a decidable string predicate
(the spec only requires a full-string match against it). -/
structure FilterDesc where
  operators : List String
  choices : Option (List String)
  pattern : Option (String → Bool)

/-- The filter schema passed to `_parse_filters` as `filterset`: a mapping
from filter name to its descriptor. -/
abbrev FilterSchema := List (String × FilterDesc)

/-- Python `filterset[name]` combined with the `name in filterset` test:
lookup of the first binding of `name`. -/
def lookupFilter (fs : FilterSchema) (name : String) : Option FilterDesc :=
  (fs.find? (fun p => p.1 == name)).map (fun p => p.2)

/-- A filter tuple `(name, operator, value)` as consumed by
`_parse_filters` (`f[0]`, `f[1]`, `f[2]` in the source). -/
abbrev FilterTuple := String × String × String

/-- The three validation failures of the error taxonomy.  In the source the
unknown-filter case is `UnexpectedValueError('{} is not a filterable option')`
raised by `_parse_filters` itself; the other two arise inside
`APIEndpoint._check`.  Each constructor records the offending field. -/
inductive FilterError where
  | unknownFilter (name : String)
  | invalidOperator (name : String) (oper : String)
  | invalidValue (name : String) (value : String)
  deriving DecidableEq

/-- Modelled from the spec: the call `self._check('filter_name', f[0], str)`
of `tenable/base.py`, which is outside the sources.  Per the spec the filter
name "must be a non-empty string"; a failing check aborts with the
unknown-filter error naming the offender.  `_check` returns the checked
value. -/
def check_filter_name (name : String) : Except FilterError String :=
  if name = "" then .error (.unknownFilter name) else .ok name

/-- Modelled from the spec: the call `self._check('filter_operator', f[1],
str, choices=filterset[f[0]]['operators'])` of `tenable/base.py`, which is
outside the sources.  Per the spec the operator "must be a non-empty string
and a member of `schema[name].operators`"; else the check fails with the
invalid-operator error. -/
def check_filter_operator (name oper : String) (operators : List String) :
    Except FilterError String :=
  if oper = "" ∨ oper ∉ operators then .error (.invalidOperator name oper)
  else .ok oper

/-- Does a value violate the constraints of a filter descriptor?  Per the
spec: "if `schema[name].choices` is non-empty, `value` must be a member of
it; if `schema[name].pattern` is set, `value` must match it (full-string
match)". -/
def valueViolates (fd : FilterDesc) (value : String) : Bool :=
  (match fd.choices with
   | some cs => !cs.isEmpty && !cs.contains value
   | none => false)
  ||
  (match fd.pattern with
   | some p => !p value
   | none => false)

/-- Modelled from the spec: the call `self._check('filter_value', f[2], str,
choices=filterset[f[0]]['choices'], pattern=filterset[f[0]]['pattern'])` of
`tenable/base.py`, which is outside the sources.  A violating value fails
with the invalid-value error. -/
def check_filter_value (name value : String) (fd : FilterDesc) :
    Except FilterError String :=
  if valueViolates fd value then .error (.invalidValue name value) else .ok value

/-- The validation performed on one tuple by the loop body of
`_parse_filters`, in source order: `fname = self._check(...)`, then
`if f[0] not in filterset: raise UnexpectedValueError(...)`, then
`foper = self._check(...)`, then `fval = self._check(...)`.  Returns the
checked `(fname, foper, fval)`. -/
def validateTuple (filterset : FilterSchema) (f : FilterTuple) :
    Except FilterError (String × String × String) := do
  let fname ← check_filter_name f.1
  match lookupFilter filterset f.1 with
  | none => .error (.unknownFilter f.1)
  | some fd =>
    let foper ← check_filter_operator f.1 f.2.1 fd.operators
    let fval ← check_filter_value f.1 f.2.2 fd
    .ok (fname, foper, fval)

/-- Python `finput.index(f)`: the position of the first element equal to
`f`.  In the source `f` is always a member of `finput`, so the
out-of-range fallback is never reached. -/
def pyListIndex : List FilterTuple → FilterTuple → Nat
  | [], _ => 0
  | y :: ys, x => if y = x then 0 else pyListIndex ys x + 1

/-- The encoding work of one loop iteration of `_parse_filters` for a
validated tuple: the three independent `if rtype == ...:` blocks mutating
`resp`.  In `sjson` mode the index used is `i = finput.index(f)`, the
position of the first occurrence of `f` in the whole input list. -/
def encodeStep (finput : List FilterTuple) (rtype : String) (resp : PyDict)
    (fname foper fval : String) (f : FilterTuple) : PyDict :=
  let resp :=
    if rtype = "sjson" then
      let i := pyListIndex finput f
      let resp := resp.assign ("filter." ++ Nat.repr i ++ ".filter") (.str fname)
      let resp := resp.assign ("filter." ++ Nat.repr i ++ ".quality") (.str foper)
      resp.assign ("filter." ++ Nat.repr i ++ ".value") (.str fval)
    else resp
  let resp :=
    if rtype = "json" then
      let resp :=
        if resp.containsKey "filters" then resp
        else resp.assign "filters" (.list [])
      resp.appendAt "filters" (.record fname foper fval)
    else resp
  if rtype = "colon" then
    let resp :=
      if resp.containsKey "f" then resp
      else resp.assign "f" (.list [])
    resp.appendAt "f" (.str (fname ++ ":" ++ foper ++ ":" ++ fval))
  else resp

/-- The `for f in finput:` loop of `_parse_filters`: each iteration validates
its tuple and then encodes it into the accumulator `resp`; a failed check
raises, aborting the whole call with no returned dictionary. -/
def parseFiltersLoop (finput : List FilterTuple) (filterset : FilterSchema)
    (rtype : String) : List FilterTuple → PyDict → Except FilterError PyDict
  | [], resp => .ok resp
  | f :: rest, resp =>
    match validateTuple filterset f with
    | .error e => .error e
    | .ok (fname, foper, fval) =>
      parseFiltersLoop finput filterset rtype rest
        (encodeStep finput rtype resp fname foper fval f)

namespace NessusEndpoint

/-- Embeds `NessusEndpoint._parse_filters(self, finput, filterset,
rtype='sjson')` from `tenable/nessus/base.py`: start from `resp = dict()`,
run the loop over `finput`, return `resp`. -/
def parse_filters (finput : List FilterTuple) (filterset : FilterSchema)
    (rtype : String := "sjson") : Except FilterError PyDict :=
  parseFiltersLoop finput filterset rtype finput []

end NessusEndpoint

/-- An HTTP request as issued by the transport layer (`self._api.delete`
and friends); the body records the optional `json={'ids': [...]}` payload. -/
structure HttpRequest where
  method : String
  path : String
  body : Option (List Int)
  deriving DecidableEq

/-- Python runtime errors reachable in `AgentsAPI.unlink`: the `NameError`
raised when an undefined name is evaluated, and the `IndexError` of
`agent_ids[0]` on an empty argument tuple. -/
inductive PyRuntimeError where
  | nameError (name : String)
  | indexError
  deriving DecidableEq

namespace AgentsAPI

/-- Embeds `AgentsAPI.unlink(self, *agent_ids)` from
`tenable/nessus/agents.py`.  The singular branch (`len(agent_ids) <= 1`)
issues `DELETE agents/{id}/unlink`; with no arguments `agent_ids[0]` raises
`IndexError`.  The bulk branch evaluates
`self._check('scanner_id', scanner_id, int)` while formatting the path, but
`scanner_id` is an undefined name in that scope, so Python raises
`NameError` before `self._api.delete` is ever invoked.  The result is the
single HTTP request issued, or the raised error (no request issued). -/
def unlink (agent_ids : List Int) : Except PyRuntimeError HttpRequest :=
  if agent_ids.length ≤ 1 then
    match agent_ids.head? with
    | none => .error .indexError
    | some a => .ok ⟨"DELETE", "agents/" ++ toString a ++ "/unlink", none⟩
  else
    .error (.nameError "scanner_id")

end AgentsAPI

/-- Specification-side shape of the `expanded` (`sjson`) encoding of one
tuple at index `i`: the three keys `filter.<i>.filter`, `filter.<i>.quality`
and `filter.<i>.value`. -/
def expandedEntries (f : FilterTuple) (i : Nat) : List (String × JVal) :=
  [("filter." ++ Nat.repr i ++ ".filter", .str f.1),
   ("filter." ++ Nat.repr i ++ ".quality", .str f.2.1),
   ("filter." ++ Nat.repr i ++ ".value", .str f.2.2)]

/-- Specification-side shape of the `expanded` encoding of a tuple list,
starting at index `i`. -/
def expandedFormAux : List FilterTuple → Nat → PyDict
  | [], _ => []
  | f :: fs, i => expandedEntries f i ++ expandedFormAux fs (i + 1)

/-- Specification-side shape of the whole `expanded` encoding: index `i`
is assigned to the i-th input tuple, starting from 0. -/
def expandedForm (l : List FilterTuple) : PyDict := expandedFormAux l 0

/-- Specification-side record for one tuple in `list` (`json`) mode. -/
def recordOf (f : FilterTuple) : JVal := .record f.1 f.2.1 f.2.2

/-- Specification-side colon string for one tuple in `colon` mode. -/
def colonOf (f : FilterTuple) : String := f.1 ++ ":" ++ f.2.1 ++ ":" ++ f.2.2

/-- Decision of whether one tuple passes the validation of
`_parse_filters`. -/
def tupleOk (filterset : FilterSchema) (f : FilterTuple) : Bool :=
  match validateTuple filterset f with
  | .ok _ => true
  | .error _ => false

/-- Validation of a tuple list in input order with no encoding at all:
the first failing tuple's error, if any. -/
def validateOnly (filterset : FilterSchema) : List FilterTuple → Except FilterError Unit
  | [] => .ok ()
  | f :: rest =>
    match validateTuple filterset f with
    | .error e => .error e
    | .ok _ => validateOnly filterset rest

/-- A concrete schema used to instantiate the theorems: one filter `state`
with operator `eq` and the choice set `{open, closed}`. -/
def sampleSchema : FilterSchema :=
  [("state", ⟨["eq"], some ["open", "closed"], none⟩)]

/-- A concrete valid tuple for `sampleSchema`. -/
def sampleTuple : FilterTuple := ("state", "eq", "open")

theorem parseFiltersLoop_nil (orig : List FilterTuple) (fs : FilterSchema)
    (rt : String) (resp : PyDict) :
    parseFiltersLoop orig fs rt [] resp = .ok resp := rfl

theorem parseFiltersLoop_cons_error {fs : FilterSchema} {f : FilterTuple}
    {e : FilterError} (orig : List FilterTuple) (rt : String)
    (rest : List FilterTuple) (resp : PyDict)
    (h : validateTuple fs f = .error e) :
    parseFiltersLoop orig fs rt (f :: rest) resp = .error e := by
  conv_lhs => rw [parseFiltersLoop]
  rw [h]

theorem parseFiltersLoop_cons_ok {fs : FilterSchema} {f : FilterTuple}
    {a b c : String} (orig : List FilterTuple) (rt : String)
    (rest : List FilterTuple) (resp : PyDict)
    (h : validateTuple fs f = .ok (a, b, c)) :
    parseFiltersLoop orig fs rt (f :: rest) resp
      = parseFiltersLoop orig fs rt rest (encodeStep orig rt resp a b c f) := by
  conv_lhs => rw [parseFiltersLoop]
  rw [h]

theorem validateTuple_name_empty {fs : FilterSchema} {f : FilterTuple}
    (h1 : f.1 = "") : validateTuple fs f = .error (.unknownFilter f.1) := by
  unfold validateTuple check_filter_name
  simp [h1]
  rfl

theorem validateTuple_unknown {fs : FilterSchema} {f : FilterTuple}
    (h1 : f.1 ≠ "") (hl : lookupFilter fs f.1 = none) :
    validateTuple fs f = .error (.unknownFilter f.1) := by
  unfold validateTuple check_filter_name
  rw [hl]
  simp [h1]
  rfl

theorem validateTuple_bad_oper {fs : FilterSchema} {f : FilterTuple}
    {fd : FilterDesc} (h1 : f.1 ≠ "") (hl : lookupFilter fs f.1 = some fd)
    (h2 : f.2.1 = "" ∨ f.2.1 ∉ fd.operators) :
    validateTuple fs f = .error (.invalidOperator f.1 f.2.1) := by
  unfold validateTuple check_filter_name check_filter_operator
  rw [hl]
  simp [h1, h2]
  rfl

theorem validateTuple_bad_value {fs : FilterSchema} {f : FilterTuple}
    {fd : FilterDesc} (h1 : f.1 ≠ "") (hl : lookupFilter fs f.1 = some fd)
    (h2 : ¬(f.2.1 = "" ∨ f.2.1 ∉ fd.operators))
    (h3 : valueViolates fd f.2.2 = true) :
    validateTuple fs f = .error (.invalidValue f.1 f.2.2) := by
  unfold validateTuple check_filter_name check_filter_operator check_filter_value
  rw [hl]
  simp [h1, h2, h3]
  rfl

theorem validateTuple_ok_case {fs : FilterSchema} {f : FilterTuple}
    {fd : FilterDesc} (h1 : f.1 ≠ "") (hl : lookupFilter fs f.1 = some fd)
    (h2 : ¬(f.2.1 = "" ∨ f.2.1 ∉ fd.operators))
    (h3 : valueViolates fd f.2.2 = false) :
    validateTuple fs f = .ok (f.1, f.2.1, f.2.2) := by
  unfold validateTuple check_filter_name check_filter_operator check_filter_value
  rw [hl]
  simp [h1, h2, h3]
  rfl

theorem validateTuple_ok_eq {fs : FilterSchema} {f : FilterTuple}
    {r : String × String × String} (h : validateTuple fs f = .ok r) :
    r = (f.1, f.2.1, f.2.2) := by
  by_cases h1 : f.1 = ""
  · rw [validateTuple_name_empty h1] at h
    exact Except.noConfusion h
  · cases hl : lookupFilter fs f.1 with
    | none =>
      rw [validateTuple_unknown h1 hl] at h
      exact Except.noConfusion h
    | some fd =>
      by_cases h2 : f.2.1 = "" ∨ f.2.1 ∉ fd.operators
      · rw [validateTuple_bad_oper h1 hl h2] at h
        exact Except.noConfusion h
      · cases h3 : valueViolates fd f.2.2 with
        | true =>
          rw [validateTuple_bad_value h1 hl h2 h3] at h
          exact Except.noConfusion h
        | false =>
          rw [validateTuple_ok_case h1 hl h2 h3] at h
          injection h with h'
          exact h'.symm

theorem tupleOk_validateTuple {fs : FilterSchema} {f : FilterTuple}
    (h : tupleOk fs f = true) :
    validateTuple fs f = .ok (f.1, f.2.1, f.2.2) := by
  unfold tupleOk at h
  cases hv : validateTuple fs f with
  | error e => rw [hv] at h; exact Bool.noConfusion h
  | ok r =>
    rw [validateTuple_ok_eq hv]

theorem parseFiltersLoop_first_error (orig : List FilterTuple)
    (fs : FilterSchema) (rt : String) :
    ∀ (pre : List FilterTuple) (bad : FilterTuple) (rest : List FilterTuple)
      (resp : PyDict) (e : FilterError),
      (∀ t ∈ pre, tupleOk fs t = true) → validateTuple fs bad = .error e →
      parseFiltersLoop orig fs rt (pre ++ bad :: rest) resp = .error e
  | [], bad, rest, resp, e, _, hbad => by
    rw [List.nil_append]
    exact parseFiltersLoop_cons_error orig rt rest resp hbad
  | t :: pre, bad, rest, resp, e, hpre, hbad => by
    rw [List.cons_append]
    rw [parseFiltersLoop_cons_ok orig rt _ resp
      (tupleOk_validateTuple (hpre t (List.mem_cons_self t _)))]
    exact parseFiltersLoop_first_error orig fs rt pre bad rest _ e
      (fun u hu => hpre u (List.mem_cons_of_mem t hu)) hbad

theorem encodeStep_other {rt : String} (h1 : rt ≠ "sjson") (h2 : rt ≠ "json")
    (h3 : rt ≠ "colon") (orig : List FilterTuple) (resp : PyDict)
    (a b c : String) (f : FilterTuple) :
    encodeStep orig rt resp a b c f = resp := by
  unfold encodeStep
  simp [h1, h2, h3]

theorem parseFiltersLoop_other (orig : List FilterTuple) (fs : FilterSchema)
    {rt : String} (h1 : rt ≠ "sjson") (h2 : rt ≠ "json") (h3 : rt ≠ "colon") :
    ∀ (l : List FilterTuple) (resp : PyDict),
      parseFiltersLoop orig fs rt l resp
        = (validateOnly fs l).map (fun _ => resp)
  | [], resp => rfl
  | f :: rest, resp => by
    unfold validateOnly
    cases hv : validateTuple fs f with
    | error e => rw [parseFiltersLoop_cons_error orig rt rest resp hv]; rfl
    | ok r =>
      obtain ⟨a, b, c⟩ := r
      rw [parseFiltersLoop_cons_ok orig rt rest resp hv,
          encodeStep_other h1 h2 h3]
      exact parseFiltersLoop_other orig fs h1 h2 h3 rest resp

theorem encodeStep_colon (orig : List FilterTuple) (acc : List JVal)
    (a b c : String) (f : FilterTuple) :
    encodeStep orig "colon" [("f", .list acc)] a b c f
      = [("f", .list (acc ++ [.str (a ++ ":" ++ b ++ ":" ++ c)]))] := by
  unfold encodeStep
  simp [PyDict.containsKey, PyDict.appendAt, JVal.push]

theorem encodeStep_colon_nil (orig : List FilterTuple)
    (a b c : String) (f : FilterTuple) :
    encodeStep orig "colon" [] a b c f
      = [("f", .list [.str (a ++ ":" ++ b ++ ":" ++ c)])] := by
  unfold encodeStep
  simp [PyDict.containsKey, PyDict.assign, PyDict.appendAt, JVal.push]

theorem parseFiltersLoop_colon (orig : List FilterTuple) (fs : FilterSchema) :
    ∀ (l : List FilterTuple) (acc : List JVal),
      (∀ t ∈ l, tupleOk fs t = true) →
      parseFiltersLoop orig fs "colon" l [("f", .list acc)]
        = .ok [("f", .list (acc ++ l.map (fun t => .str (colonOf t))))]
  | [], acc, _ => by simp [parseFiltersLoop_nil]
  | t :: rest, acc, hok => by
    rw [parseFiltersLoop_cons_ok orig "colon" rest _
      (tupleOk_validateTuple (hok t (List.mem_cons_self t _)))]
    rw [encodeStep_colon]
    rw [parseFiltersLoop_colon orig fs rest _
      (fun u hu => hok u (List.mem_cons_of_mem t hu))]
    simp [colonOf]

theorem encodeStep_json (orig : List FilterTuple) (acc : List JVal)
    (a b c : String) (f : FilterTuple) :
    encodeStep orig "json" [("filters", .list acc)] a b c f
      = [("filters", .list (acc ++ [.record a b c]))] := by
  unfold encodeStep
  simp [PyDict.containsKey, PyDict.appendAt, JVal.push]

theorem encodeStep_json_nil (orig : List FilterTuple)
    (a b c : String) (f : FilterTuple) :
    encodeStep orig "json" [] a b c f
      = [("filters", .list [.record a b c])] := by
  unfold encodeStep
  simp [PyDict.containsKey, PyDict.assign, PyDict.appendAt, JVal.push]

theorem parseFiltersLoop_json (orig : List FilterTuple) (fs : FilterSchema) :
    ∀ (l : List FilterTuple) (acc : List JVal),
      (∀ t ∈ l, tupleOk fs t = true) →
      parseFiltersLoop orig fs "json" l [("filters", .list acc)]
        = .ok [("filters", .list (acc ++ l.map recordOf))]
  | [], acc, _ => by simp [parseFiltersLoop_nil]
  | t :: rest, acc, hok => by
    rw [parseFiltersLoop_cons_ok orig "json" rest _
      (tupleOk_validateTuple (hok t (List.mem_cons_self t _)))]
    rw [encodeStep_json]
    rw [parseFiltersLoop_json orig fs rest _
      (fun u hu => hok u (List.mem_cons_of_mem t hu))]
    simp [recordOf]

theorem toDigitsCore_shift : ∀ (fuel n : Nat) (ds : List Char),
    Nat.toDigitsCore 10 fuel n ds = Nat.toDigitsCore 10 fuel n [] ++ ds
  | 0, n, ds => rfl
  | fuel + 1, n, ds => by
    rw [Nat.toDigitsCore]
    conv_rhs => rw [Nat.toDigitsCore]
    by_cases h : n / 10 = 0
    · simp [h]
    · simp only [h, if_false]
      rw [toDigitsCore_shift fuel (n / 10) [Nat.digitChar (n % 10)],
          toDigitsCore_shift fuel (n / 10)
            (Nat.digitChar (n % 10) :: ds)]
      simp

theorem toDigitsCore_fuel : ∀ (fuel₁ fuel₂ n : Nat) (ds : List Char),
    n < fuel₁ → n < fuel₂ →
    Nat.toDigitsCore 10 fuel₁ n ds = Nat.toDigitsCore 10 fuel₂ n ds := by
  intro fuel₁
  induction fuel₁ with
  | zero => intro fuel₂ n ds h₁ _; omega
  | succ f₁ ih =>
    intro fuel₂ n ds h₁ h₂
    cases fuel₂ with
    | zero => omega
    | succ f₂ =>
      rw [Nat.toDigitsCore]
      conv_rhs => rw [Nat.toDigitsCore]
      by_cases h : n / 10 = 0
      · simp [h]
      · simp only [h, if_false]
        have hn : 0 < n := by
          rcases Nat.eq_zero_or_pos n with rfl | hpos
          · simp at h
          · exact hpos
        have hd : n / 10 < n := Nat.div_lt_self hn (by omega)
        exact ih f₂ (n / 10) _ (by omega) (by omega)

/-- Reading a digit character back as its numeric value. -/
theorem digitChar_readback {n : Nat} (h : n < 10) :
    (Nat.digitChar n).toNat - '0'.toNat = n := by
  interval_cases n <;> decide

/-- Folding the decimal digits of `n` most-significant first recovers `n`. -/
theorem toDigits_readback (n : Nat) :
    (Nat.toDigits 10 n).foldl (fun a c => a * 10 + (c.toNat - '0'.toNat)) 0
      = n := by
  induction n using Nat.strong_induction_on with
  | _ n ih =>
    unfold Nat.toDigits
    rw [Nat.toDigitsCore]
    by_cases h : n / 10 = 0
    · have hn : n < 10 := by omega
      simp only [h, if_true, List.foldl]
      rw [digitChar_readback (Nat.mod_lt n (by omega))]
      omega
    · have hn : 0 < n := by
        rcases Nat.eq_zero_or_pos n with rfl | hpos
        · simp at h
        · exact hpos
      have hd : n / 10 < n := Nat.div_lt_self hn (by omega)
      simp only [h, if_false]
      rw [toDigitsCore_shift]
      rw [toDigitsCore_fuel n (n / 10 + 1) (n / 10) [] (by omega) (by omega)]
      rw [List.foldl_append]
      have := ih (n / 10) hd
      unfold Nat.toDigits at this
      rw [this]
      simp only [List.foldl]
      rw [digitChar_readback (Nat.mod_lt n (by omega))]
      omega

theorem toDigits_inj {m n : Nat} (h : Nat.toDigits 10 m = Nat.toDigits 10 n) :
    m = n := by
  have hm := toDigits_readback m
  have hn := toDigits_readback n
  rw [h] at hm
  omega

/-- Decimal representation of naturals is injective. -/
theorem nat_repr_inj {m n : Nat} (h : Nat.repr m = Nat.repr n) : m = n := by
  unfold Nat.repr at h
  have : Nat.toDigits 10 m = Nat.toDigits 10 n := congrArg String.data h
  exact toDigits_inj this

/-- Digit characters emitted for digits are in the ASCII digit range. -/
theorem digitChar_range {n : Nat} (h : n < 10) :
    '0' ≤ Nat.digitChar n ∧ Nat.digitChar n ≤ '9' := by
  interval_cases n <;> exact ⟨by decide, by decide⟩

theorem toDigitsCore_digits : ∀ (fuel n : Nat) (ds : List Char),
    (∀ c ∈ ds, '0' ≤ c ∧ c ≤ '9') →
    ∀ c ∈ Nat.toDigitsCore 10 fuel n ds, '0' ≤ c ∧ c ≤ '9' := by
  intro fuel
  induction fuel with
  | zero => intro n ds hds; exact hds
  | succ f ih =>
    intro n ds hds c hc
    rw [Nat.toDigitsCore] at hc
    by_cases h : n / 10 = 0
    · simp only [h, if_true] at hc
      rcases List.mem_cons.mp hc with rfl | hc
      · exact digitChar_range (Nat.mod_lt n (by omega))
      · exact hds c hc
    · simp only [h, if_false] at hc
      refine ih (n / 10) _ ?_ c hc
      intro d hd
      rcases List.mem_cons.mp hd with rfl | hd
      · exact digitChar_range (Nat.mod_lt n (by omega))
      · exact hds d hd

/-- Every character of the decimal representation of a natural is a digit,
in particular never the separator dot. -/
theorem repr_char_ne_dot {n : Nat} {c : Char} (h : c ∈ (Nat.repr n).data) :
    c ≠ '.' := by
  have : '0' ≤ c ∧ c ≤ '9' :=
    toDigitsCore_digits (n + 1) n [] (by simp) c h
  intro hc
  subst hc
  rcases this with ⟨h1, _⟩
  exact absurd h1 (by decide)

/-- Injectivity of the key format used by the `sjson` encoding: two keys
built as `filter.<i><suffix>` with dot-initial suffixes agree only when the
indices and the suffixes agree. -/
theorem filterKey_inj {i j : Nat} {s t : String}
    (hs : ∃ cs, s.data = '.' :: cs) (ht : ∃ ct, t.data = '.' :: ct)
    (h : "filter." ++ Nat.repr i ++ s = "filter." ++ Nat.repr j ++ t) :
    i = j ∧ s = t := by
  obtain ⟨cs, hcs⟩ := hs
  obtain ⟨ct, hct⟩ := ht
  have hd : ("filter." ++ Nat.repr i ++ s).data
      = ("filter." ++ Nat.repr j ++ t).data := congrArg String.data h
  simp only [String.data_append, List.append_assoc] at hd
  have hd2 : (Nat.repr i).data ++ s.data = (Nat.repr j).data ++ t.data :=
    List.append_cancel_left hd
  rcases List.append_eq_append_iff.mp hd2 with ⟨w, hw1, hw2⟩ | ⟨w, hw1, hw2⟩
  · cases w with
    | nil =>
      rw [List.append_nil] at hw1
      have hij : i = j := nat_repr_inj (String.ext hw1.symm)
      have hst : s.data = t.data := by
        rw [hw1] at hd2
        exact List.append_cancel_left hd2
      exact ⟨hij, String.ext hst⟩
    | cons c w' =>
      have hc : c ∈ (Nat.repr j).data := by
        rw [hw1]
        exact List.mem_append_right _ (List.mem_cons_self c w')
      have : c = '.' := by
        rw [hcs] at hw2
        exact ((List.cons.injEq .. ▸ hw2).1).symm
      exact absurd this (repr_char_ne_dot hc)
  · cases w with
    | nil =>
      rw [List.append_nil] at hw1
      have hij : i = j := nat_repr_inj (String.ext hw1)
      have hst : s.data = t.data := by
        rw [hw1] at hd2
        exact List.append_cancel_left hd2
      exact ⟨hij, String.ext hst⟩
    | cons c w' =>
      have hc : c ∈ (Nat.repr i).data := by
        rw [hw1]
        exact List.mem_append_right _ (List.mem_cons_self c w')
      have : c = '.' := by
        rw [hct] at hw2
        exact ((List.cons.injEq .. ▸ hw2).1).symm
      exact absurd this (repr_char_ne_dot hc)

theorem containsKey_iff_mem (d : PyDict) (k : String) :
    d.containsKey k = true ↔ k ∈ d.keys := by
  unfold PyDict.containsKey PyDict.keys
  rw [List.any_eq_true]
  constructor
  · rintro ⟨p, hp, hpk⟩
    exact List.mem_map.mpr ⟨p, hp, (beq_iff_eq.mp hpk)⟩
  · intro hk
    obtain ⟨p, hp, hpk⟩ := List.mem_map.mp hk
    exact ⟨p, hp, beq_iff_eq.mpr hpk⟩

theorem containsKey_false_of_not_mem {d : PyDict} {k : String}
    (h : k ∉ d.keys) : d.containsKey k = false := by
  rw [Bool.eq_false_iff]
  intro hc
  exact h ((containsKey_iff_mem d k).mp hc)

theorem assign_fresh {d : PyDict} {k : String} (v : JVal)
    (h : k ∉ d.keys) : d.assign k v = d ++ [(k, v)] := by
  unfold PyDict.assign
  rw [containsKey_false_of_not_mem h]
  simp

theorem pyListIndex_append {pre rest : List FilterTuple} {f : FilterTuple}
    (h : f ∉ pre) : pyListIndex (pre ++ f :: rest) f = pre.length := by
  induction pre with
  | nil => simp [pyListIndex]
  | cons p pre ih =>
    have hp : ¬(p = f) := fun he => h (he ▸ List.mem_cons_self p pre)
    simp only [List.cons_append, pyListIndex, hp, if_false, List.append_eq]
    rw [ih (fun hm => h (List.mem_cons_of_mem p hm))]
    rfl

theorem expandedFormAux_append : ∀ (l₁ l₂ : List FilterTuple) (i : Nat),
    expandedFormAux (l₁ ++ l₂) i
      = expandedFormAux l₁ i ++ expandedFormAux l₂ (i + l₁.length)
  | [], l₂, i => by simp [expandedFormAux]
  | f :: l₁, l₂, i => by
    simp only [List.cons_append, expandedFormAux, List.length_cons,
      List.append_eq]
    rw [expandedFormAux_append l₁ l₂ (i + 1)]
    simp only [List.append_assoc]
    have : i + 1 + l₁.length = i + (l₁.length + 1) := by omega
    rw [this]

theorem expandedFormAux_length : ∀ (l : List FilterTuple) (i : Nat),
    (expandedFormAux l i).length = 3 * l.length
  | [], _ => rfl
  | f :: l, i => by
    simp only [expandedFormAux, expandedEntries, List.length_append,
      List.length_cons, List.length_nil, expandedFormAux_length l (i + 1)]
    omega

/-- Every key of the spec-side expanded form of a list placed at start index
`i` is a `filter.<m><suffix>` key with `i ≤ m < i + length` and a dot-initial
suffix. -/
theorem expandedFormAux_keys_shape : ∀ (l : List FilterTuple) (i : Nat)
    (k : String), k ∈ (expandedFormAux l i).keys →
    ∃ m s, i ≤ m ∧ m < i + l.length ∧ (∃ cs, s.data = '.' :: cs)
      ∧ k = "filter." ++ Nat.repr m ++ s
  | [], _, k => by simp [expandedFormAux, PyDict.keys]
  | f :: l, i, k => by
    intro hk
    unfold expandedFormAux at hk
    unfold PyDict.keys at hk
    rw [List.map_append] at hk
    rcases List.mem_append.mp hk with hk | hk
    · simp only [expandedEntries, List.map_cons, List.map_nil, List.mem_cons,
        List.not_mem_nil, or_false] at hk
      have hlen : i < i + (f :: l).length := by
        simp only [List.length_cons]
        omega
      rcases hk with rfl | rfl | rfl
      · exact ⟨i, ".filter", le_refl i, hlen, ⟨"filter".data, rfl⟩, rfl⟩
      · exact ⟨i, ".quality", le_refl i, hlen, ⟨"quality".data, rfl⟩, rfl⟩
      · exact ⟨i, ".value", le_refl i, hlen, ⟨"value".data, rfl⟩, rfl⟩
    · obtain ⟨m, s, hm1, hm2, hs, hk⟩ :=
        expandedFormAux_keys_shape l (i + 1) k hk
      exact ⟨m, s, by omega, by simp only [List.length_cons]; omega, hs, hk⟩

theorem keys_append (d₁ d₂ : PyDict) :
    (d₁ ++ d₂ : PyDict).keys = d₁.keys ++ d₂.keys := by
  unfold PyDict.keys
  exact List.map_append _ d₁ d₂

theorem filterKey_suffix_ne {i j : Nat} {s t : String}
    (hs : ∃ cs, s.data = '.' :: cs) (ht : ∃ ct, t.data = '.' :: ct)
    (hne : s ≠ t) :
    "filter." ++ Nat.repr i ++ s ≠ "filter." ++ Nat.repr j ++ t :=
  fun h => hne (filterKey_inj hs ht h).2

theorem fresh_key_expanded (pre : List FilterTuple) {s : String}
    (hs : ∃ cs, s.data = '.' :: cs) :
    ("filter." ++ Nat.repr pre.length ++ s) ∉ (expandedFormAux pre 0).keys := by
  intro hmem
  obtain ⟨m, t, _, hm2, ht, hk⟩ := expandedFormAux_keys_shape pre 0 _ hmem
  obtain ⟨hij, -⟩ := filterKey_inj hs ht hk
  omega

theorem encodeStep_sjson (orig : List FilterTuple) (resp : PyDict)
    (a b c : String) (f : FilterTuple) :
    encodeStep orig "sjson" resp a b c f
      = ((resp.assign
            ("filter." ++ Nat.repr (pyListIndex orig f) ++ ".filter") (.str a)).assign
            ("filter." ++ Nat.repr (pyListIndex orig f) ++ ".quality") (.str b)).assign
            ("filter." ++ Nat.repr (pyListIndex orig f) ++ ".value") (.str c) := by
  unfold encodeStep
  simp

theorem parseFiltersLoop_sjson (fs : FilterSchema) (orig : List FilterTuple)
    (hnd : orig.Nodup) (hvalid : ∀ t ∈ orig, tupleOk fs t = true) :
    ∀ (rest pre : List FilterTuple), orig = pre ++ rest →
      parseFiltersLoop orig fs "sjson" rest (expandedFormAux pre 0)
        = .ok (expandedFormAux orig 0)
  | [], pre, horig => by
    rw [parseFiltersLoop_nil, horig, List.append_nil]
  | f :: rest, pre, horig => by
    have hfmem : f ∈ orig := by
      rw [horig]
      exact List.mem_append_right pre (List.mem_cons_self f rest)
    have hfpre : f ∉ pre := by
      rw [horig] at hnd
      intro hin
      exact (List.disjoint_of_nodup_append hnd) hin (List.mem_cons_self f rest)
    have hidx : pyListIndex orig f = pre.length := by
      rw [horig]
      exact pyListIndex_append hfpre
    rw [parseFiltersLoop_cons_ok orig "sjson" rest _
      (tupleOk_validateTuple (hvalid f hfmem))]
    rw [encodeStep_sjson, hidx]
    have hshape1 : ∃ cs, (".filter" : String).data = '.' :: cs := ⟨"filter".data, rfl⟩
    have hshape2 : ∃ cs, (".quality" : String).data = '.' :: cs := ⟨"quality".data, rfl⟩
    have hshape3 : ∃ cs, (".value" : String).data = '.' :: cs := ⟨"value".data, rfl⟩
    have h1 : ("filter." ++ Nat.repr pre.length ++ ".filter")
        ∉ (expandedFormAux pre 0).keys := fresh_key_expanded pre hshape1
    have h2 : ("filter." ++ Nat.repr pre.length ++ ".quality")
        ∉ (expandedFormAux pre 0
            ++ [("filter." ++ Nat.repr pre.length ++ ".filter", JVal.str f.1)] : PyDict).keys := by
      rw [keys_append]
      intro hmem
      rcases List.mem_append.mp hmem with hm | hm
      · exact fresh_key_expanded pre hshape2 hm
      · simp only [PyDict.keys, List.map_cons, List.map_nil,
          List.mem_singleton] at hm
        exact filterKey_suffix_ne hshape2 hshape1 (by decide) hm
    have h3 : ("filter." ++ Nat.repr pre.length ++ ".value")
        ∉ ((expandedFormAux pre 0
            ++ [("filter." ++ Nat.repr pre.length ++ ".filter", JVal.str f.1)])
            ++ [("filter." ++ Nat.repr pre.length ++ ".quality", JVal.str f.2.1)] : PyDict).keys := by
      rw [keys_append, keys_append]
      intro hmem
      rcases List.mem_append.mp hmem with hm | hm
      · rcases List.mem_append.mp hm with hm2 | hm2
        · exact fresh_key_expanded pre hshape3 hm2
        · simp only [PyDict.keys, List.map_cons, List.map_nil,
            List.mem_singleton] at hm2
          exact filterKey_suffix_ne hshape3 hshape1 (by decide) hm2
      · simp only [PyDict.keys, List.map_cons, List.map_nil,
          List.mem_singleton] at hm
        exact filterKey_suffix_ne hshape3 hshape2 (by decide) hm
    rw [assign_fresh (JVal.str f.1) h1, assign_fresh (JVal.str f.2.1) h2,
        assign_fresh (JVal.str f.2.2) h3]
    have hstep : (((expandedFormAux pre 0
          ++ [("filter." ++ Nat.repr pre.length ++ ".filter", JVal.str f.1)])
          ++ [("filter." ++ Nat.repr pre.length ++ ".quality", JVal.str f.2.1)])
          ++ [("filter." ++ Nat.repr pre.length ++ ".value", JVal.str f.2.2)])
        = expandedFormAux (pre ++ [f]) 0 := by
      rw [expandedFormAux_append pre [f] 0]
      simp [expandedFormAux, expandedEntries]
    rw [hstep]
    exact parseFiltersLoop_sjson fs orig hnd hvalid rest (pre ++ [f])
      (by rw [horig, List.append_assoc]; rfl)

theorem keys_assign_contains {d : PyDict} {k : String} (v : JVal)
    (h : d.containsKey k = true) : (d.assign k v).keys = d.keys := by
  unfold PyDict.assign
  rw [h]
  simp only [if_true]
  unfold PyDict.keys
  rw [List.map_map]
  apply List.map_congr_left
  intro p _
  by_cases hpk : p.1 == k
  · simp only [Function.comp, hpk, if_true]
    exact (beq_iff_eq.mp hpk).symm
  · simp only [Function.comp, hpk]
    simp at hpk
    simp [hpk]

theorem keys_appendAt (d : PyDict) (k : String) (x : JVal) :
    (d.appendAt k x).keys = d.keys := by
  unfold PyDict.appendAt PyDict.keys
  rw [List.map_map]
  apply List.map_congr_left
  intro p _
  by_cases hpk : p.1 == k <;> simp [Function.comp, hpk]

theorem nodup_after_assign {d : PyDict} (k : String) (v : JVal)
    (h : d.keys.Nodup) : (d.assign k v).keys.Nodup := by
  cases hc : d.containsKey k with
  | true => rw [keys_assign_contains v hc]; exact h
  | false =>
    have hc' : k ∉ d.keys := fun hm => by
      rw [(containsKey_iff_mem d k).mpr hm] at hc
      exact Bool.noConfusion hc
    rw [assign_fresh v hc', keys_append]
    refine List.Nodup.append h (List.nodup_singleton k) ?_
    intro a ha hb
    rw [List.mem_singleton.mp hb] at ha
    exact hc' ha

theorem nodup_after_appendAt {d : PyDict} (k : String) (x : JVal)
    (h : d.keys.Nodup) : (d.appendAt k x).keys.Nodup := by
  rw [keys_appendAt]
  exact h

theorem nodup_after_ensure {d : PyDict} (k : String)
    (h : d.keys.Nodup) :
    ((if d.containsKey k then d else d.assign k (.list [])) : PyDict).keys.Nodup := by
  split
  · exact h
  · exact nodup_after_assign k (.list []) h

theorem encodeStep_keys_nodup (orig : List FilterTuple) (rt : String)
    {resp : PyDict} (a b c : String) (f : FilterTuple)
    (h : resp.keys.Nodup) : (encodeStep orig rt resp a b c f).keys.Nodup := by
  unfold encodeStep
  by_cases h1 : rt = "sjson" <;> by_cases h2 : rt = "json" <;>
    by_cases h3 : rt = "colon" <;>
    simp only [h1, h2, h3, if_true, if_false] <;>
    first
      | exact h
      | (repeat
          first
            | exact h
            | apply nodup_after_assign
            | apply nodup_after_appendAt
            | apply nodup_after_ensure)

theorem parseFiltersLoop_keys_nodup (orig : List FilterTuple)
    (fs : FilterSchema) (rt : String) :
    ∀ (l : List FilterTuple) (resp : PyDict), resp.keys.Nodup →
      ∀ d : PyDict, parseFiltersLoop orig fs rt l resp = .ok d → d.keys.Nodup
  | [], resp, h, d, hd => by
    rw [parseFiltersLoop_nil] at hd
    injection hd with hd
    exact hd ▸ h
  | f :: rest, resp, h, d, hd => by
    cases hv : validateTuple fs f with
    | error e =>
      rw [parseFiltersLoop_cons_error orig rt rest resp hv] at hd
      exact Except.noConfusion hd
    | ok r =>
      obtain ⟨a, b, c⟩ := r
      rw [parseFiltersLoop_cons_ok orig rt rest resp hv] at hd
      exact parseFiltersLoop_keys_nodup orig fs rt rest _
        (encodeStep_keys_nodup orig rt a b c f h) d hd

/-- Any dictionary returned by `_parse_filters` has pairwise-distinct keys
(the Python dict invariant carried by the association-list model). -/
theorem parse_filters_keys_nodup {finput : List FilterTuple}
    {fs : FilterSchema} {rt : String} {d : PyDict}
    (h : NessusEndpoint.parse_filters finput fs rt = .ok d) :
    d.keys.Nodup :=
  parseFiltersLoop_keys_nodup finput fs rt finput [] List.nodup_nil d h

/-- A schema whose only filter name is the empty string, used to show that an
empty tuple name is rejected even when the schema contains that key. -/
def emptyNameSchema : FilterSchema := [("", ⟨["eq"], some ["open"], none⟩)]

/-- A schema in which the empty string is itself a permitted operator. -/
def operEmptySchema : FilterSchema := [("state", ⟨["eq", ""], some ["open"], none⟩)]

/-- C1 (counterexample): on the duplicate-tuple input
`[sampleTuple, sampleTuple]` the `sjson` encoding returns 3 keys, not 3×2,
because `finput.index(f)` always finds the first occurrence; the key
`filter.1.filter` is never produced. -/
theorem C1_counterexample :
    NessusEndpoint.parse_filters [sampleTuple, sampleTuple] sampleSchema "sjson"
      = .ok [("filter.0.filter", .str "state"), ("filter.0.quality", .str "eq"),
             ("filter.0.value", .str "open")]
    ∧ ([("filter.0.filter", JVal.str "state"), ("filter.0.quality", JVal.str "eq"),
        ("filter.0.value", JVal.str "open")] : PyDict).length = 3
    ∧ (3 : Nat) ≠ 3 * 2
    ∧ PyDict.containsKey
        [("filter.0.filter", JVal.str "state"), ("filter.0.quality", JVal.str "eq"),
         ("filter.0.value", JVal.str "open")] "filter.1.filter" = false :=
  ⟨rfl, rfl, by decide, rfl⟩

/-- C1 (amended): for pairwise-distinct valid tuples, the `sjson` encoding is
exactly the expanded form: 3×N bindings, keys `filter.<i>.filter`,
`filter.<i>.quality`, `filter.<i>.value` with index i assigned to the i-th
input tuple in input order, and all keys pairwise distinct. -/
theorem C1_expanded_shape_of_nodup (finput : List FilterTuple)
    (fs : FilterSchema) (hnd : finput.Nodup)
    (hvalid : ∀ t ∈ finput, tupleOk fs t = true) :
    NessusEndpoint.parse_filters finput fs "sjson" = .ok (expandedForm finput)
    ∧ (expandedForm finput).length = 3 * finput.length
    ∧ (expandedForm finput).keys.Nodup := by
  have hmain : NessusEndpoint.parse_filters finput fs "sjson"
      = .ok (expandedForm finput) := by
    unfold NessusEndpoint.parse_filters expandedForm
    exact parseFiltersLoop_sjson fs finput hnd hvalid finput [] rfl
  exact ⟨hmain, expandedFormAux_length finput 0, parse_filters_keys_nodup hmain⟩

theorem C1_witness :
    (([sampleTuple, ("state", "eq", "closed")] : List FilterTuple).Nodup
      ∧ ∀ t ∈ ([sampleTuple, ("state", "eq", "closed")] : List FilterTuple),
          tupleOk sampleSchema t = true)
    ∧ (NessusEndpoint.parse_filters [sampleTuple, ("state", "eq", "closed")]
          sampleSchema "sjson"
        = .ok (expandedForm [sampleTuple, ("state", "eq", "closed")])
      ∧ (expandedForm [sampleTuple, ("state", "eq", "closed")]).length
          = 3 * ([sampleTuple, ("state", "eq", "closed")] : List FilterTuple).length
      ∧ (expandedForm [sampleTuple, ("state", "eq", "closed")]).keys.Nodup) :=
  ⟨⟨by decide, by decide⟩,
   C1_expanded_shape_of_nodup [sampleTuple, ("state", "eq", "closed")]
     sampleSchema (by decide) (by decide)⟩

/-- C2 (counterexample): the implementation encodes tuple 0 into the local
accumulator before tuple 1 is ever validated: the loop reaches the failing
tuple carrying three already-encoded bindings, which are then discarded when
the validation error aborts the call.  It therefore does encode-then-discard
rather than validating all tuples before emitting any encoded output. -/
theorem C2_counterexample :
    NessusEndpoint.parse_filters [sampleTuple, ("bogus", "eq", "open")]
        sampleSchema "sjson"
      = .error (.unknownFilter "bogus")
    ∧ parseFiltersLoop [sampleTuple, ("bogus", "eq", "open")] sampleSchema
        "sjson" [sampleTuple, ("bogus", "eq", "open")] []
      = parseFiltersLoop [sampleTuple, ("bogus", "eq", "open")] sampleSchema
          "sjson" [("bogus", "eq", "open")]
          [("filter.0.filter", .str "state"), ("filter.0.quality", .str "eq"),
           ("filter.0.value", .str "open")]
    ∧ ([("filter.0.filter", JVal.str "state"),
        ("filter.0.quality", JVal.str "eq"),
        ("filter.0.value", JVal.str "open")] : PyDict) ≠ [] := by
  refine ⟨rfl, rfl, fun h => ?_⟩
  exact List.noConfusion h

/-- C2 (amended): validation is fail-fast and per tuple: the first invalid
tuple in input order aborts the call with that tuple's validation error and
no dictionary is returned, whatever the encoding; encoded entries built for
earlier valid tuples live only in the discarded local accumulator. -/
theorem C2_fail_fast (fs : FilterSchema) (rt : String)
    (pre : List FilterTuple) (bad : FilterTuple) (rest : List FilterTuple)
    (e : FilterError) (hpre : ∀ t ∈ pre, tupleOk fs t = true)
    (hbad : validateTuple fs bad = .error e) :
    NessusEndpoint.parse_filters (pre ++ bad :: rest) fs rt = .error e :=
  parseFiltersLoop_first_error (pre ++ bad :: rest) fs rt pre bad rest [] e
    hpre hbad

theorem C2_witness :
    ((∀ t ∈ ([sampleTuple] : List FilterTuple), tupleOk sampleSchema t = true)
      ∧ validateTuple sampleSchema ("bogus", "eq", "open")
          = .error (.unknownFilter "bogus"))
    ∧ NessusEndpoint.parse_filters
        ([sampleTuple] ++ ("bogus", "eq", "open") :: [("state", "eq", "closed")])
        sampleSchema "sjson"
      = .error (.unknownFilter "bogus") :=
  ⟨⟨by decide, rfl⟩,
   C2_fail_fast sampleSchema "sjson" [sampleTuple] ("bogus", "eq", "open")
     [("state", "eq", "closed")] (.unknownFilter "bogus") (by decide) rfl⟩

/-- C3: a tuple whose name is empty or not a schema key fails with the
unknown-filter error naming the offending filter, whatever the encoding; the
empty name is rejected by the name check before the schema is consulted, so
it fails even when the schema contains an empty-string key. -/
theorem C3_unknown_filter (fs : FilterSchema) (t : FilterTuple)
    (rest : List FilterTuple) (rt : String)
    (h : t.1 = "" ∨ lookupFilter fs t.1 = none) :
    NessusEndpoint.parse_filters (t :: rest) fs rt
      = .error (.unknownFilter t.1) := by
  have hv : validateTuple fs t = .error (.unknownFilter t.1) := by
    by_cases h1 : t.1 = ""
    · exact validateTuple_name_empty h1
    · rcases h with h | h
      · exact absurd h h1
      · exact validateTuple_unknown h1 h
  unfold NessusEndpoint.parse_filters
  exact parseFiltersLoop_cons_error (t :: rest) rt rest [] hv

theorem C3_witness :
    (((("", "eq", "open") : FilterTuple).1 = ""
        ∨ lookupFilter emptyNameSchema ((("", "eq", "open") : FilterTuple)).1 = none)
      ∧ NessusEndpoint.parse_filters [("", "eq", "open")] emptyNameSchema "colon"
        = .error (.unknownFilter "")) :=
  ⟨Or.inl rfl,
   C3_unknown_filter emptyNameSchema ("", "eq", "open") [] "colon" (Or.inl rfl)⟩

/-- C4 (counterexample): with the empty string among the permitted operators
and an operator field equal to it, the call fails with the invalid-operator
error even though the operator is a member of `schema[name].operators`
(refuting "exactly when the operator is not a member"), and it does not fail
with the invalid-value error even though the value violates the choice set
(refuting the second biconditional; the operator check runs first). -/
theorem C4_counterexample :
    NessusEndpoint.parse_filters [("state", "", "bogus")] operEmptySchema "colon"
      = .error (.invalidOperator "state" "")
    ∧ ("" ∈ (["eq", ""] : List String))
    ∧ valueViolates ⟨["eq", ""], some ["open"], none⟩ "bogus" = true
    ∧ NessusEndpoint.parse_filters [("state", "", "bogus")] operEmptySchema "colon"
        ≠ .error (.invalidValue "state" "bogus") := by
  have h1 : NessusEndpoint.parse_filters [("state", "", "bogus")]
      operEmptySchema "colon" = .error (.invalidOperator "state" "") := rfl
  refine ⟨h1, by decide, rfl, fun hcon => ?_⟩
  rw [h1] at hcon
  injection hcon with h2
  exact FilterError.noConfusion h2

/-- C4 (amended): for a single tuple with a schema-known, non-empty name,
the call fails with the invalid-operator error exactly when the operator is
empty or not a member of the schema entry's operators; when the operator is
valid, it fails with the invalid-value error exactly when the value violates
the choice-set or pattern constraint; and the three error kinds are pairwise
distinct, so the caller can distinguish them. -/
theorem C4_operator_value_errors (fs : FilterSchema) (name oper value : String)
    (fd : FilterDesc) (rt : String) (h1 : name ≠ "")
    (hl : lookupFilter fs name = some fd) :
    (NessusEndpoint.parse_filters [(name, oper, value)] fs rt
        = .error (.invalidOperator name oper)
      ↔ (oper = "" ∨ oper ∉ fd.operators))
    ∧ (oper ≠ "" → oper ∈ fd.operators →
        (NessusEndpoint.parse_filters [(name, oper, value)] fs rt
            = .error (.invalidValue name value)
          ↔ valueViolates fd value = true))
    ∧ (∀ a b c : String, FilterError.unknownFilter a ≠ .invalidOperator b c
        ∧ FilterError.unknownFilter a ≠ .invalidValue b c)
    ∧ (∀ a b c d : String, FilterError.invalidOperator a b ≠ .invalidValue c d) := by
  unfold NessusEndpoint.parse_filters
  refine ⟨?_, ?_, by intro a b c; exact ⟨fun h => FilterError.noConfusion h,
    fun h => FilterError.noConfusion h⟩,
    by intro a b c d; exact fun h => FilterError.noConfusion h⟩
  · constructor
    · intro heq
      by_cases h2 : oper = "" ∨ oper ∉ fd.operators
      · exact h2
      · exfalso
        cases h3 : valueViolates fd value with
        | true =>
          rw [parseFiltersLoop_cons_error _ _ _ _
            (validateTuple_bad_value h1 hl h2 h3)] at heq
          injection heq with h4
          exact FilterError.noConfusion h4
        | false =>
          rw [parseFiltersLoop_cons_ok _ _ _ _
            (validateTuple_ok_case h1 hl h2 h3), parseFiltersLoop_nil] at heq
          exact Except.noConfusion heq
    · intro h2
      exact parseFiltersLoop_cons_error _ _ _ _ (validateTuple_bad_oper h1 hl h2)
  · intro ho1 ho2
    have h2 : ¬(oper = "" ∨ oper ∉ fd.operators) := by
      rintro (h | h)
      · exact ho1 h
      · exact h ho2
    constructor
    · intro heq
      cases h3 : valueViolates fd value with
      | true => rfl
      | false =>
        exfalso
        rw [parseFiltersLoop_cons_ok _ _ _ _
          (validateTuple_ok_case h1 hl h2 h3), parseFiltersLoop_nil] at heq
        exact Except.noConfusion heq
    · intro h3
      exact parseFiltersLoop_cons_error _ _ _ _
        (validateTuple_bad_value h1 hl h2 h3)

theorem C4_witness :
    (("state" : String) ≠ ""
      ∧ lookupFilter sampleSchema "state"
          = some ⟨["eq"], some ["open", "closed"], none⟩)
    ∧ ((NessusEndpoint.parse_filters [("state", "eq", "open")] sampleSchema "colon"
          = .error (.invalidOperator "state" "eq")
        ↔ (("eq" : String) = "" ∨ ("eq" : String) ∉ (["eq"] : List String)))
      ∧ (("eq" : String) ≠ "" → ("eq" : String) ∈ (["eq"] : List String) →
          (NessusEndpoint.parse_filters [("state", "eq", "open")] sampleSchema "colon"
              = .error (.invalidValue "state" "open")
            ↔ valueViolates ⟨["eq"], some ["open", "closed"], none⟩ "open" = true))
      ∧ (∀ a b c : String, FilterError.unknownFilter a ≠ .invalidOperator b c
          ∧ FilterError.unknownFilter a ≠ .invalidValue b c)
      ∧ (∀ a b c d : String, FilterError.invalidOperator a b ≠ .invalidValue c d)) :=
  ⟨⟨by decide, rfl⟩,
   C4_operator_value_errors sampleSchema "state" "eq" "open"
     ⟨["eq"], some ["open", "closed"], none⟩ "colon" (by decide) rfl⟩

/-- C5 (counterexample): on the empty tuple list the `colon` encoding returns
the empty dictionary, not a dictionary whose only entry is `f` bound to an
empty sequence. -/
theorem C5_counterexample :
    NessusEndpoint.parse_filters [] sampleSchema "colon" = .ok ([] : PyDict)
    ∧ NessusEndpoint.parse_filters [] sampleSchema "colon"
        ≠ .ok [("f", JVal.list [])] := by
  have h0 : NessusEndpoint.parse_filters [] sampleSchema "colon"
      = .ok ([] : PyDict) := rfl
  refine ⟨h0, fun h => ?_⟩
  rw [h0] at h
  injection h with h1
  exact List.noConfusion h1

/-- C5 (amended): for every nonempty list of valid tuples, the `colon`
encoding returns the dictionary whose only entry is `f` bound to the sequence
whose i-th element is `name:operator:value` of the i-th input tuple, in input
order. -/
theorem C5_colon_shape (fs : FilterSchema) (t : FilterTuple)
    (ts : List FilterTuple)
    (hvalid : ∀ u ∈ t :: ts, tupleOk fs u = true) :
    NessusEndpoint.parse_filters (t :: ts) fs "colon"
      = .ok [("f", .list ((t :: ts).map (fun u => .str (colonOf u))))] := by
  unfold NessusEndpoint.parse_filters
  rw [parseFiltersLoop_cons_ok _ _ _ _
    (tupleOk_validateTuple (hvalid t (List.mem_cons_self t ts)))]
  rw [encodeStep_colon_nil]
  have := parseFiltersLoop_colon (t :: ts) fs ts [.str (colonOf t)]
    (fun u hu => hvalid u (List.mem_cons_of_mem t hu))
  rw [show (JVal.str (t.1 ++ ":" ++ t.2.1 ++ ":" ++ t.2.2))
      = JVal.str (colonOf t) from rfl]
  rw [this]
  simp

theorem C5_witness :
    (∀ u ∈ ([sampleTuple] : List FilterTuple), tupleOk sampleSchema u = true)
    ∧ NessusEndpoint.parse_filters [sampleTuple] sampleSchema "colon"
        = .ok [("f", .list [.str "state:eq:open"])] := by
  refine ⟨by decide, ?_⟩
  have h := C5_colon_shape sampleSchema sampleTuple [] (by decide)
  rw [h]
  rfl

/-- C6 (counterexample): on the empty tuple list the `json` encoding returns
the empty dictionary, not a dictionary whose only entry is `filters` bound to
an empty sequence. -/
theorem C6_counterexample :
    NessusEndpoint.parse_filters [] sampleSchema "json" = .ok ([] : PyDict)
    ∧ NessusEndpoint.parse_filters [] sampleSchema "json"
        ≠ .ok [("filters", JVal.list [])] := by
  have h0 : NessusEndpoint.parse_filters [] sampleSchema "json"
      = .ok ([] : PyDict) := rfl
  refine ⟨h0, fun h => ?_⟩
  rw [h0] at h
  injection h with h1
  exact List.noConfusion h1

/-- C6 (amended): for every nonempty list of valid tuples, the `json`
encoding returns the dictionary whose only entry is `filters` bound to the
ordered sequence of records `{filter: name, quality: operator, value: value}`
of the input tuples, in input order. -/
theorem C6_json_shape (fs : FilterSchema) (t : FilterTuple)
    (ts : List FilterTuple)
    (hvalid : ∀ u ∈ t :: ts, tupleOk fs u = true) :
    NessusEndpoint.parse_filters (t :: ts) fs "json"
      = .ok [("filters", .list ((t :: ts).map recordOf))] := by
  unfold NessusEndpoint.parse_filters
  rw [parseFiltersLoop_cons_ok _ _ _ _
    (tupleOk_validateTuple (hvalid t (List.mem_cons_self t ts)))]
  rw [encodeStep_json_nil]
  have := parseFiltersLoop_json (t :: ts) fs ts [recordOf t]
    (fun u hu => hvalid u (List.mem_cons_of_mem t hu))
  rw [show (JVal.record t.1 t.2.1 t.2.2) = recordOf t from rfl]
  rw [this]
  simp

theorem C6_witness :
    (∀ u ∈ ([sampleTuple] : List FilterTuple), tupleOk sampleSchema u = true)
    ∧ NessusEndpoint.parse_filters [sampleTuple] sampleSchema "json"
        = .ok [("filters", .list [.record "state" "eq" "open"])] := by
  refine ⟨by decide, ?_⟩
  have h := C6_json_shape sampleSchema sampleTuple [] (by decide)
  rw [h]
  rfl

/-- C7: the translation is a pure, deterministic function of its three
inputs: the embedding threads no endpoint or shared state (the source reads
and writes none), and two calls on identical inputs return structurally
identical results, with identical key sets and ordering. -/
theorem C7_deterministic (fi₁ fi₂ : List FilterTuple)
    (fs₁ fs₂ : FilterSchema) (rt₁ rt₂ : String)
    (h₁ : fi₁ = fi₂) (h₂ : fs₁ = fs₂) (h₃ : rt₁ = rt₂) :
    NessusEndpoint.parse_filters fi₁ fs₁ rt₁
      = NessusEndpoint.parse_filters fi₂ fs₂ rt₂ := by
  rw [h₁, h₂, h₃]

theorem C7_witness :
    (([sampleTuple] : List FilterTuple) = [sampleTuple]
      ∧ sampleSchema = sampleSchema ∧ ("colon" : String) = "colon")
    ∧ NessusEndpoint.parse_filters [sampleTuple] sampleSchema "colon"
        = NessusEndpoint.parse_filters [sampleTuple] sampleSchema "colon" :=
  ⟨⟨rfl, rfl, rfl⟩,
   C7_deterministic [sampleTuple] [sampleTuple] sampleSchema sampleSchema
     "colon" "colon" rfl rfl rfl⟩

/-- C8: on the empty tuple list the translation returns the empty dictionary
under every encoding string, so neither the `filters` key of `json` mode nor
the `f` key of `colon` mode is present. -/
theorem C8_empty_input (fs : FilterSchema) (rt : String) :
    NessusEndpoint.parse_filters [] fs rt = .ok ([] : PyDict)
    ∧ PyDict.containsKey [] "filters" = false
    ∧ PyDict.containsKey [] "f" = false :=
  ⟨rfl, rfl, rfl⟩

/-- C9: for any encoding string other than the three known ones, the
translation still validates every tuple in input order and fails with the
first tuple's validation error, and returns the empty dictionary when all
tuples are valid; no error about the encoding itself is ever raised. -/
theorem C9_unknown_rtype (finput : List FilterTuple) (fs : FilterSchema)
    (rt : String) (h1 : rt ≠ "sjson") (h2 : rt ≠ "json") (h3 : rt ≠ "colon") :
    NessusEndpoint.parse_filters finput fs rt
      = (validateOnly fs finput).map (fun _ => ([] : PyDict)) := by
  unfold NessusEndpoint.parse_filters
  exact parseFiltersLoop_other finput fs h1 h2 h3 finput []

theorem C9_witness :
    (("csv" : String) ≠ "sjson" ∧ ("csv" : String) ≠ "json"
      ∧ ("csv" : String) ≠ "colon")
    ∧ NessusEndpoint.parse_filters [sampleTuple] sampleSchema "csv"
        = (validateOnly sampleSchema [sampleTuple]).map (fun _ => ([] : PyDict)) :=
  ⟨⟨by decide, by decide, by decide⟩,
   C9_unknown_rtype [sampleTuple] sampleSchema "csv"
     (by decide) (by decide) (by decide)⟩

/-- C10: every bulk call of `AgentsAPI.unlink` (two or more agent ids) fails
with the `NameError` on the undefined name `scanner_id` raised while the
request path is being formatted, before any HTTP request is issued; the bulk
branch can never succeed. -/
theorem C10_bulk_unlink_name_error (agent_ids : List Int)
    (h : 2 ≤ agent_ids.length) :
    AgentsAPI.unlink agent_ids = .error (.nameError "scanner_id") := by
  unfold AgentsAPI.unlink
  rw [if_neg (by omega)]

theorem C10_witness :
    2 ≤ ([1, 2] : List Int).length
    ∧ AgentsAPI.unlink [1, 2] = .error (.nameError "scanner_id") :=
  ⟨by decide, C10_bulk_unlink_name_error [1, 2] (by decide)⟩
